import Mathlib

/-!
Verification of the jpegli encoder orchestration layer (`lib/jpegli/encode.cc`).

The definitions below are a shallow embedding of the C++ source:
* marker bytes are `Nat` values `< 256` (every byte written into the store is
  reduced mod 256, mirroring the `uint8_t` stores of the source);
* `JDIMENSION` / `unsigned int` arithmetic is `Nat` arithmetic reduced mod
  `2 ^ 32` wherever the source's 32-bit wrap-around is observable;
* the fatal `JPEGLI_ERROR` long-jumps are modelled with `Except`.
-/

namespace JpegliModel

/-- Fatal encoder errors raised via `JPEGLI_ERROR` in the source. -/
inductive EncErr where
  | invalidMarkerLength
  | unsupportedMarker
  | markerHeaderMissing
  | unsupportedSubsampling
  | nonIntegralSubsamplingRatio
  | invalidSamplingFactor
  | invalidComponents
  deriving DecidableEq, Repr

/-- `kMaxBytesInMarker = 65533` from the source. -/
def kMaxBytesInMarker : Nat := 65533

/-- `kICCSignature`, the 12-byte `"ICC_PROFILE\0"` tag. -/
def kICCSigList : List Nat :=
  [0x49, 0x43, 0x43, 0x5F, 0x50, 0x52, 0x4F, 0x46, 0x49, 0x4C, 0x45, 0x00]

/-- `kICCMarker = JPEG_APP0 + 2 = 0xE2`. -/
def kICCMarker : Nat := 0xe2

/-- The marker-store slice of `jpeg_comp_master`: the list of raw marker blobs
and the back-reference `cur_marker_data`, modelled as an index into the list
(the source keeps a pointer to the last appended blob). -/
structure MarkerState where
  special_markers : List (List Nat)
  cur_marker : Option Nat
  deriving DecidableEq, Repr

/-- `jpegli_write_m_header(cinfo, marker, datalen)`.  `marker` is a C `int`,
`datalen` an `unsigned int`.  On success a fresh 4-byte blob
`FF, marker, (datalen+2)>>8, (datalen+2)&0xFF` is appended (each byte stored
through `uint8_t`, hence the mod 256) and `cur_marker_data` points at it. -/
def jpegli_write_m_header (st : MarkerState) (marker : Int) (datalen : Nat) :
    Except EncErr MarkerState :=
  if datalen > kMaxBytesInMarker then .error .invalidMarkerLength
  else if marker ≠ 0xfe ∧ (marker < 0xe0 ∨ marker > 0xef) then .error .unsupportedMarker
  else
    .ok ⟨st.special_markers ++
          [[0xff, (marker % 256).toNat, (datalen + 2) / 256 % 256, (datalen + 2) % 256]],
         some st.special_markers.length⟩

/-- `jpegli_write_m_byte(cinfo, val)`: appends one byte (the `int` argument
truncated to `uint8_t`, i.e. reduced mod 256) to the currently open blob;
fails when no `jpegli_write_m_header` call is open. -/
def jpegli_write_m_byte (st : MarkerState) (val : Int) : Except EncErr MarkerState :=
  match st.cur_marker with
  | none => .error .markerHeaderMissing
  | some idx =>
      .ok ⟨st.special_markers.set idx
            ((st.special_markers.getD idx []) ++ [(val % 256).toNat]),
           some idx⟩

/-- A sequence of `jpegli_write_m_byte` calls, one per list element (the
source writes the ICC signature and the chunk data byte-by-byte). -/
def writeMBytes (st : MarkerState) (l : List Nat) : Except EncErr MarkerState :=
  l.foldlM (fun s (b : Nat) => jpegli_write_m_byte s (b : Int)) st

/-- `DivCeil(a, b) = (a + b - 1) / b` from `lib/jxl/base`. -/
def divCeil (a b : Nat) : Nat := (a + b - 1) / b

/-- `kMaxIccBytesInMarker = kMaxBytesInMarker - sizeof kICCSignature - 2
= 65533 - 12 - 2 = 65519`. -/
def kMaxIccBytesInMarker : Nat := kMaxBytesInMarker - 12 - 2

/-- The marker loop of `jpegli_write_icc_profile`: for each
`current_marker < num_markers` it writes one APP2 header, the 12-byte
signature, the 1-based sequence number, the chunk count, and
`min(kMaxIccBytesInMarker, icc_data_len - begin)` data bytes. -/
def writeIccLoop (icc : List Nat) (numMarkers : Nat) :
    Nat → Nat → MarkerState → Except EncErr MarkerState := fun currentMarker start st =>
  if currentMarker < numMarkers then
    let len := min kMaxIccBytesInMarker (icc.length - start)
    match jpegli_write_m_header st (kICCMarker : Int) (len + 12 + 2) with
    | .error e => .error e
    | .ok st1 =>
      match writeMBytes st1 kICCSigList with
      | .error e => .error e
      | .ok st2 =>
        match jpegli_write_m_byte st2 ((currentMarker : Int) + 1) with
        | .error e => .error e
        | .ok st3 =>
          match jpegli_write_m_byte st3 (numMarkers : Int) with
          | .error e => .error e
          | .ok st4 =>
            match writeMBytes st4 ((icc.drop start).take len) with
            | .error e => .error e
            | .ok st5 => writeIccLoop icc numMarkers (currentMarker + 1) (start + len) st5
  else .ok st
  termination_by currentMarker _ _ => numMarkers - currentMarker
  decreasing_by simp_wf; omega

/-- `jpegli_write_icc_profile(cinfo, icc_data_ptr, icc_data_len)`. -/
def jpegli_write_icc_profile (st : MarkerState) (icc : List Nat) :
    Except EncErr MarkerState :=
  writeIccLoop icc (divCeil icc.length kMaxIccBytesInMarker) 0 0 st

/-- `GetMarkerPayload`: checks the 2-byte big-endian length field against the
blob size and strips the 4-byte `FF mm len_hi len_lo` head.  Marker bytes are
`uint8_t`, so `(hi << 8) | lo` of the source equals `hi * 256 + lo`. -/
def GetMarkerPayload (m : List Nat) : Option (List Nat) :=
  if m.length < 4 then none
  else
    let hi := m.getD 2 0
    let lo := m.getD 3 0
    if hi * 256 + lo ≠ m.length - 2 then none
    else some (m.drop 4)

/-- The per-marker state of `ParseChunkedMarker`: the `chunks` / `presence`
vectors (index 0 unused), the agreed chunk count, the first-chunk flag and the
running ordinal. -/
structure ChunkState where
  chunks : List (List Nat)
  presence : List Bool
  expected : Nat
  isFirst : Bool
  ordinal : Nat
  deriving DecidableEq, Repr

/-- The body of the marker loop in `ParseChunkedMarker`, processing one entry
of `special_markers`.  `Except.error` models the `JXL_FAILURE` returns,
`Except.ok` the fall-through (including the `continue` skips). -/
def processChunkMarker (markerType : Nat) (tag : List Nat) (allowPermutations : Bool)
    (st : ChunkState) (m : List Nat) : Except Unit ChunkState :=
  if m.length < 2 ∨ m.getD 1 0 ≠ markerType then .ok st
  else
    match GetMarkerPayload m with
    | none => .ok st
    | some payload0 =>
      if payload0.length < tag.length ∨ payload0.take tag.length ≠ tag then .ok st
      else
        let payload1 := payload0.drop tag.length
        if payload1.length < 2 then .error ()
        else
          let index := payload1.getD 0 0
          let total := payload1.getD 1 0
          let ord := st.ordinal + 1
          if allowPermutations = false ∧ index ≠ ord then .error ()
          else
            let payload := payload1.drop 2
            if total = 0 then .error ()
            else
              let st1 := if st.isFirst then
                  ChunkState.mk (List.replicate (total + 1) [])
                    (List.replicate (total + 1) false) total false ord
                else { st with ordinal := ord }
              if st.isFirst = false ∧ st.expected ≠ total then .error ()
              else if index = 0 ∨ index > total then .error ()
              else if st1.presence.getD index false then .error ()
              else .ok { st1 with
                          presence := st1.presence.set index true,
                          chunks := st1.chunks.set index payload }

/-- `ParseChunkedMarker(cinfo, marker_type, tag, output, allow_permutations)`:
scans `special_markers` in order, then concatenates the collected chunks in
index order; `none` models a failed `jxl::Status`. -/
def ParseChunkedMarker (markers : List (List Nat)) (markerType : Nat)
    (tag : List Nat) (allowPermutations : Bool) : Option (List Nat) :=
  match markers.foldlM (processChunkMarker markerType tag allowPermutations)
      (ChunkState.mk [] [] 0 true 0) with
  | .error _ => none
  | .ok st =>
    if (List.range st.expected).all (fun i => st.presence.getD (i + 1) false) then
      some ((List.range st.expected).flatMap (fun i => st.chunks.getD (i + 1) []))
    else none

/-- The loop body of `SetICCAppMarker`: the accumulator is the rebuilt list
together with the `icc_added` flag. -/
def iccFoldStep (icc : List Nat) (acc : List (List Nat) × Bool) (v : List Nat) :
    List (List Nat) × Bool :=
  if v.getD 1 0 ≠ 0xe2 then (acc.1 ++ [v], acc.2)
  else if acc.2 = false then (acc.1 ++ [icc], true)
  else acc

/-- `SetICCAppMarker(cinfo, icc)`: rebuilds `special_markers`, keeping
non-APP2 blobs, substituting `icc` for the first APP2 blob (or appending it
when none exists). -/
def SetICCAppMarker (markers : List (List Nat)) (icc : List Nat) :
    List (List Nat) :=
  let p := markers.foldl (iccFoldStep icc) ([], false)
  if p.2 = false then p.1 ++ [icc] else p.1

theorem iccFoldStep_keep (icc : List Nat) (acc : List (List Nat)) (b : Bool)
    (v : List Nat) (hv : v.getD 1 0 ≠ 0xe2) :
    iccFoldStep icc (acc, b) v = (acc ++ [v], b) := by
  unfold iccFoldStep
  rw [if_pos hv]

theorem iccFoldStep_first (icc : List Nat) (acc : List (List Nat))
    (v : List Nat) (hv : v.getD 1 0 = 0xe2) :
    iccFoldStep icc (acc, false) v = (acc ++ [icc], true) := by
  unfold iccFoldStep
  rw [if_neg (not_not_intro hv), if_pos rfl]

theorem iccFoldStep_drop (icc : List Nat) (acc : List (List Nat))
    (v : List Nat) (hv : v.getD 1 0 = 0xe2) :
    iccFoldStep icc (acc, true) v = (acc, true) := by
  unfold iccFoldStep
  rw [if_neg (not_not_intro hv), if_neg (by simp)]

/-- `jpegli::ProgressiveScan`: one scan template of the default scan script. -/
structure ProgressiveScan where
  Ss : Nat
  Se : Nat
  Ah : Nat
  Al : Nat
  interleaved : Bool
  deriving DecidableEq, Repr

/-- One `jpeg_scan_info` record (spectral band, successive-approximation bits,
and the covered components). -/
structure ScanInfo where
  Ss : Nat
  Se : Nat
  Ah : Nat
  Al : Nat
  comps_in_scan : Nat
  component_index : List Nat
  deriving DecidableEq, Repr

/-- The scan-template table of `SetDefaultScanScript`, selected by
`progressive_level` (validated non-negative by `jpegli_set_progressive_level`)
and `max_shift`. -/
def progressiveScans (level maxShift : Nat) : List ProgressiveScan :=
  if level = 0 then [⟨0, 63, 0, 0, true⟩]
  else if level = 1 then
    [⟨0, 0, 0, 0, decide (maxShift > 0)⟩, ⟨1, 63, 0, 1, false⟩, ⟨1, 63, 1, 0, false⟩]
  else
    [⟨0, 0, 0, 0, decide (maxShift > 0)⟩, ⟨1, 2, 0, 0, false⟩, ⟨3, 63, 0, 2, false⟩,
     ⟨3, 63, 2, 1, false⟩, ⟨3, 63, 1, 0, false⟩]

/-- The expansion of one template in `SetDefaultScanScript`: an interleaved
template yields one scan covering components `0..ncomp-1`; otherwise one
single-component scan per component. -/
def scanInfosOfTemplate (ncomp : Nat) (s : ProgressiveScan) : List ScanInfo :=
  if s.interleaved then [⟨s.Ss, s.Se, s.Ah, s.Al, ncomp, List.range ncomp⟩]
  else (List.range ncomp).map (fun c => ⟨s.Ss, s.Se, s.Ah, s.Al, 1, [c]⟩)

/-- `SetDefaultScanScript(cinfo, max_shift)`: the `scan_info` array it
installs (its length is the source's `script_space_size`). -/
def SetDefaultScanScript (level maxShift ncomp : Nat) : List ScanInfo :=
  (progressiveScans level maxShift).flatMap (scanInfosOfTemplate ncomp)

/-- Placeholder `jpeg_scan_info` used to read `scan_info[0]` (never observed on
a non-empty script). -/
def defaultScanInfo : ScanInfo := ⟨0, 0, 0, 0, 0, []⟩

/-- The `progressive_mode` assignment of `jpegli_start_compress`: from the
user script's first entry when one was installed (`DCTSIZE2 - 1 = 63`),
otherwise from `progressive_level`. -/
def startCompressProgressiveMode (scanInfo : Option (List ScanInfo)) (level : Nat) : Bool :=
  match scanInfo with
  | some s => decide ((s.getD 0 defaultScanInfo).Ss ≠ 0 ∨ (s.getD 0 defaultScanInfo).Se ≠ 63)
  | none => decide (level > 0)

/-- The scan script the encode ends up using: the user-supplied one, or the
planner's output (installed in `jpegli_finish_compress` when
`scan_info == nullptr`). -/
def determinedScanScript (scanInfo : Option (List ScanInfo)) (level maxShift ncomp : Nat) :
    List ScanInfo :=
  match scanInfo with
  | some s => s
  | none => SetDefaultScanScript level maxShift ncomp

/-- `max_h_samp_factor` as computed by `jpegli_start_compress` (components as
`(h_samp_factor, v_samp_factor)` pairs, accumulator seeded with 1). -/
def maxHSampFactor (comps : List (Nat × Nat)) : Nat :=
  comps.foldl (fun a c => max c.1 a) 1

/-- `max_v_samp_factor` as computed by `jpegli_start_compress`. -/
def maxVSampFactor (comps : List (Nat × Nat)) : Nat :=
  comps.foldl (fun a c => max c.2 a) 1

/-- The per-component sampling checks of `jpegli_start_compress`, in source
order: square sampling, divisibility of `max_h_samp_factor`, and the
power-of-two test (`shift` loop over `0..3`). -/
def checkCompSampling (maxH : Nat) (c : Nat × Nat) : Option EncErr :=
  if c.1 ≠ c.2 then some .unsupportedSubsampling
  else if maxH % c.1 ≠ 0 then some .nonIntegralSubsamplingRatio
  else if (List.range 4).all (fun shift => decide (maxH / c.1 ≠ 2 ^ shift)) then
    some .invalidSamplingFactor
  else none

/-- The sampling-factor validation loop of `jpegli_start_compress`: the first
failing check of the first failing component wins (the `JPEGLI_ERROR` calls
abort the loop). -/
def validateSamplingFactors (comps : List (Nat × Nat)) : Option EncErr :=
  comps.findSome? (checkCompSampling (maxHSampFactor comps))

/-- `JpegliDataType` (`JPEGLI_TYPE_UINT8 / UINT16 / FLOAT`). -/
inductive JpegliDataType where
  | u8
  | u16
  | f32
  deriving DecidableEq, Repr

/-- The `bytes_per_sample` selection in `jpegli_write_scanlines`. -/
def bytesPerSample : JpegliDataType → Nat
  | .u8 => 1
  | .u16 => 2
  | .f32 => 4

/-- `LoadLE16`: two bytes, little-endian. -/
def loadLE16 (row : List Nat) (off : Nat) : Nat :=
  row.getD off 0 + 256 * row.getD (off + 1) 0

/-- `LoadBE16`: two bytes, big-endian. -/
def loadBE16 (row : List Nat) (off : Nat) : Nat :=
  256 * row.getD off 0 + row.getD (off + 1) 0

/-- The 32-bit pattern read by `LoadLEFloat`. -/
def loadLE32 (row : List Nat) (off : Nat) : Nat :=
  row.getD off 0 + 256 * row.getD (off + 1) 0 + 65536 * row.getD (off + 2) 0 +
    16777216 * row.getD (off + 3) 0

/-- The 32-bit pattern read by `LoadBEFloat`. -/
def loadBE32 (row : List Nat) (off : Nat) : Nat :=
  16777216 * row.getD off 0 + 65536 * row.getD (off + 1) 0 +
    256 * row.getD (off + 2) 0 + row.getD (off + 3) 0

/-- The sample value staged into `input.PlaneRow(c, y)[x]` from a source row.
The source stores `float`s; the model uses exact rationals for the
`* (1/255)` / `* (1/65535)` scalings, and records the decoded 32-bit pattern
in the FLOAT case (the source reinterprets exactly those bits, so the pattern
determines the stored value).  The offset `c*bps + x*pwidth` with
`pwidth = num_components * bps` follows the source's pointer stepping. -/
def sampleValue (dt : JpegliDataType) (isLE : Bool) (ncomp : Nat) (row : List Nat)
    (c x : Nat) : ℚ :=
  match dt with
  | .u8 => (row.getD (c + x * (ncomp * 1)) 0 : ℚ) * (1 / 255)
  | .u16 =>
      ((if isLE then loadLE16 row (c * 2 + x * (ncomp * 2))
        else loadBE16 row (c * 2 + x * (ncomp * 2))) : ℚ) * (1 / 65535)
  | .f32 =>
      ((if isLE then loadLE32 row (c * 4 + x * (ncomp * 4))
        else loadBE32 row (c * 4 + x * (ncomp * 4))) : Nat)

/-- The three planar float images `m->input`, as a function of
`(component, y, x)`. -/
def Plane : Type := Nat → Nat → Nat → ℚ

/-- One store `row[x] = v` into a plane. -/
def setSample (p : Plane) (c y x : Nat) (v : ℚ) : Plane :=
  fun c' y' x' => if c' = c ∧ y' = y ∧ x' = x then v else p c' y' x'

/-- The inner `x` loop of `jpegli_write_scanlines` (ascending `x < w`). -/
def stageRow (dt : JpegliDataType) (isLE : Bool) (ncomp : Nat) (row : List Nat)
    (c y : Nat) (p : Plane) : Nat → Plane
  | 0 => p
  | w + 1 =>
      setSample (stageRow dt isLE ncomp row c y p w) c y w
        (sampleValue dt isLE ncomp row c w)

/-- The middle `i` loop: lines `i < n`, writing row `next_scanline + i`. -/
def stageLines (dt : JpegliDataType) (isLE : Bool) (ncomp width : Nat)
    (rows : List (List Nat)) (c next : Nat) (p : Plane) : Nat → Plane
  | 0 => p
  | i + 1 =>
      stageRow dt isLE ncomp (rows.getD i []) c (next + i)
        (stageLines dt isLE ncomp width rows c next p i) width

/-- The outer component loop: components `c < k`. -/
def stageComps (dt : JpegliDataType) (isLE : Bool) (ncomp width : Nat)
    (rows : List (List Nat)) (next n : Nat) (p : Plane) : Nat → Plane
  | 0 => p
  | k + 1 =>
      stageLines dt isLE ncomp width rows k next
        (stageComps dt isLE ncomp width rows next n p k) n

/-- The input-stager slice of the compression context used by
`jpegli_write_scanlines`.  `isLittleEndian` is the resolved endianness bool of
the source (`LITTLE`, or `NATIVE` on a little-endian host).  All
`JDIMENSION` fields are 32-bit in the source. -/
structure ScanlineState where
  num_components : Nat
  image_width : Nat
  image_height : Nat
  next_scanline : Nat
  data_type : JpegliDataType
  isLittleEndian : Bool
  planes : Plane

/-- `jpegli_write_scanlines(cinfo, scanlines, num_lines)`: rejects more than 3
components, truncates `num_lines` via the 32-bit comparison
`num_lines + next_scanline > image_height`, stages the samples, advances the
32-bit `next_scanline`, and returns the (possibly truncated) line count. -/
def jpegli_write_scanlines (st : ScanlineState) (rows : List (List Nat)) (numLines : Nat) :
    Except EncErr (ScanlineState × Nat) :=
  if 3 < st.num_components then .error .invalidComponents
  else
    let n := if (numLines + st.next_scanline) % 2 ^ 32 > st.image_height then
        st.image_height - st.next_scanline
      else numLines
    let p := stageComps st.data_type st.isLittleEndian st.num_components st.image_width
        rows st.next_scanline n st.planes st.num_components
    .ok ({ st with planes := p, next_scanline := (st.next_scanline + n) % 2 ^ 32 }, n)

/-! ### List helper lemmas -/

theorem jl_set_length_append (l1 l2 : List α) (v : α) :
    (l1 ++ l2).set l1.length v = l1 ++ l2.set 0 v := by
  induction l1 with
  | nil => simp
  | cons a t ih => simp [ih]

theorem jl_getD_length_append (l1 l2 : List α) (d : α) :
    (l1 ++ l2).getD l1.length d = l2.getD 0 d := by
  rw [List.getD_append_right l1 l2 d l1.length (le_refl _)]
  simp

theorem jl_set_getD_self (l : List α) (i : Nat) (d : α) (h : i < l.length) :
    l.set i (l.getD i d) = l := by
  induction l generalizing i with
  | nil => simp at h
  | cons a t ih =>
    cases i with
    | zero => simp [List.getD]
    | succ j =>
      simp only [List.length_cons, Nat.add_lt_add_iff_right] at h
      rw [List.getD_cons_succ, List.set_cons_succ, ih j h]

theorem jl_take_succ_getD (l : List α) (i : Nat) (d : α) (h : i < l.length) :
    l.take (i + 1) = l.take i ++ [l.getD i d] := by
  induction l generalizing i with
  | nil => simp at h
  | cons a t ih =>
    cases i with
    | zero => simp [List.getD]
    | succ j =>
      simp only [List.length_cons, Nat.add_lt_add_iff_right] at h
      simp [List.getD_cons_succ, ih j h]

theorem jl_take_min_length (l : List α) (n : Nat) :
    l.take (min n l.length) = l.take n := by
  rcases Nat.le_total n l.length with h | h
  · rw [min_eq_left h]
  · rw [min_eq_right h, List.take_length, List.take_of_length_le h]

theorem jl_getD_replicate_lt (a d : α) (n i : Nat) (h : i < n) :
    (List.replicate n a).getD i d = a := by
  rw [List.getD_eq_getElem?_getD, List.getElem?_replicate, if_pos h]
  rfl

theorem jl_int_byte (n : Nat) : (((n : Int)) % 256).toNat = n % 256 := by
  omega

theorem jl_map_mod_self (l : List Nat) (h : ∀ b ∈ l, b < 256) :
    l.map (fun b => b % 256) = l := by
  have := List.map_congr_left (l := l) (f := fun b => b % 256) (g := id)
    (fun b hb => Nat.mod_eq_of_lt (h b hb))
  simpa using this

theorem jl_range_flatMap_getD (C : List (List Nat)) :
    (List.range C.length).flatMap (fun i => C.getD i []) = C.flatten := by
  induction C with
  | nil => simp
  | cons c t ih =>
    rw [List.length_cons, List.range_succ_eq_map, List.flatMap_cons]
    simp only [List.getD_cons_zero, List.flatten_cons]
    congr 1
    rw [List.flatMap_map]
    simpa [Function.comp, List.getD_cons_succ] using ih

instance {ε α : Type} [DecidableEq ε] [DecidableEq α] : DecidableEq (Except ε α) := fun a b =>
  match a, b with
  | .error e, .error f =>
      if h : e = f then isTrue (by rw [h])
      else isFalse (by intro hh; injection hh; contradiction)
  | .ok x, .ok y =>
      if h : x = y then isTrue (by rw [h])
      else isFalse (by intro hh; injection hh; contradiction)
  | .error _, .ok _ => isFalse (by intro hh; exact Except.noConfusion hh)
  | .ok _, .error _ => isFalse (by intro hh; exact Except.noConfusion hh)

/-! ### C3: the default scan script for `progressive_level ≥ 2` -/

/-- C3 (amended): for `progressive_level ≥ 2` the planner emits the five
template groups `(0,0,0,0), (1,2,0,0), (3,63,0,2), (3,63,2,1), (3,63,1,0)`;
the first group is a single interleaved scan iff `max_shift > 0` and otherwise
one scan per component, so the scan count is
`(if max_shift > 0 then 1 else num_components) + 4 * num_components`. -/
theorem C3_default_scan_script (level maxShift ncomp : Nat) (h2 : 2 ≤ level) :
    SetDefaultScanScript level maxShift ncomp =
      (if maxShift > 0 then [⟨0, 0, 0, 0, ncomp, List.range ncomp⟩]
       else (List.range ncomp).map (fun c => ⟨0, 0, 0, 0, 1, [c]⟩)) ++
      ((List.range ncomp).map (fun c => ⟨1, 2, 0, 0, 1, [c]⟩) ++
       ((List.range ncomp).map (fun c => ⟨3, 63, 0, 2, 1, [c]⟩) ++
        ((List.range ncomp).map (fun c => ⟨3, 63, 2, 1, 1, [c]⟩) ++
         (List.range ncomp).map (fun c => ⟨3, 63, 1, 0, 1, [c]⟩)))) ∧
    (SetDefaultScanScript level maxShift ncomp).length =
      (if maxShift > 0 then 1 else ncomp) + 4 * ncomp := by
  have hl0 : level ≠ 0 := by omega
  have hl1 : level ≠ 1 := by omega
  have hmain : SetDefaultScanScript level maxShift ncomp =
      (if maxShift > 0 then [(⟨0, 0, 0, 0, ncomp, List.range ncomp⟩ : ScanInfo)]
       else (List.range ncomp).map (fun c => ⟨0, 0, 0, 0, 1, [c]⟩)) ++
      ((List.range ncomp).map (fun c => ⟨1, 2, 0, 0, 1, [c]⟩) ++
       ((List.range ncomp).map (fun c => ⟨3, 63, 0, 2, 1, [c]⟩) ++
        ((List.range ncomp).map (fun c => ⟨3, 63, 2, 1, 1, [c]⟩) ++
         (List.range ncomp).map (fun c => ⟨3, 63, 1, 0, 1, [c]⟩)))) := by
    by_cases hms : maxShift > 0 <;>
      simp [SetDefaultScanScript, progressiveScans, scanInfosOfTemplate, hl0, hl1, hms]
  refine ⟨hmain, ?_⟩
  rw [hmain]
  by_cases hms : maxShift > 0 <;> simp [hms] <;> ring

/-- C3 counterexample: with three components all sampled 1×1
(`max_shift = 0`) and `progressive_level = 2`, the planner emits 15 scans,
not `1 + 3·3 + 3 = 13` as the claim states. -/
theorem C3_scan_count_counterexample :
    (SetDefaultScanScript 2 0 3).length = 15 ∧
      ¬ (SetDefaultScanScript 2 0 3).length = 1 + 3 * 3 + 3 := by decide

/-- Witness instantiating `C3_default_scan_script`. -/
theorem C3_default_scan_script_witness :
    (SetDefaultScanScript 2 1 3).length = (if 1 > 0 then 1 else 3) + 4 * 3 :=
  (C3_default_scan_script 2 1 3 (by decide)).2

/-! ### C4: `SetICCAppMarker` -/

/-- The fold of `SetICCAppMarker` once the ICC blob has been placed: every
later APP2 entry is dropped, everything else is kept. -/
theorem jl_icc_fold_added (icc : List Nat) (ms : List (List Nat)) :
    ∀ acc, ms.foldl (iccFoldStep icc) (acc, true) =
      (acc ++ ms.filter (fun v => decide (v.getD 1 0 ≠ 0xe2)), true) := by
  induction ms with
  | nil => intro acc; simp
  | cons v t ih =>
    intro acc
    rw [List.foldl_cons]
    by_cases hv : v.getD 1 0 ≠ 0xe2
    · rw [iccFoldStep_keep icc acc true v hv, ih (acc ++ [v]),
        List.filter_cons, if_pos (by simpa using hv)]
      simp
    · have hv' : v.getD 1 0 = 0xe2 := by omega
      rw [iccFoldStep_drop icc acc v hv', ih acc,
        List.filter_cons, if_neg (by rw [decide_eq_true_eq]; exact not_not_intro hv')]

/-- The fold of `SetICCAppMarker` while no APP2 entry has been seen and none
occurs: all entries are kept and the flag stays unset. -/
theorem jl_icc_fold_keep (icc : List Nat) (ms : List (List Nat))
    (hms : ∀ v ∈ ms, v.getD 1 0 ≠ 0xe2) :
    ∀ acc, ms.foldl (iccFoldStep icc) (acc, false) = (acc ++ ms, false) := by
  induction ms with
  | nil => intro acc; simp
  | cons v t ih =>
    intro acc
    have hv : v.getD 1 0 ≠ 0xe2 := hms v (by simp)
    rw [List.foldl_cons, iccFoldStep_keep icc acc false v hv,
      ih (fun w hw => hms w (by simp [hw])) (acc ++ [v])]
    simp

/-- C4 (amended): `set_icc_app_marker` keeps non-APP2 entries in order and
replaces the first APP2 entry with the blob, but *removes* every later APP2
entry; when no APP2 entry exists the blob is appended at the end. -/
theorem C4_set_icc_app_marker (markers : List (List Nat)) (icc : List Nat) :
    ((∀ v ∈ markers, v.getD 1 0 ≠ 0xe2) → SetICCAppMarker markers icc = markers ++ [icc]) ∧
    (∀ pre a suf, markers = pre ++ a :: suf → (∀ v ∈ pre, v.getD 1 0 ≠ 0xe2) →
      a.getD 1 0 = 0xe2 →
      SetICCAppMarker markers icc =
        pre ++ icc :: suf.filter (fun v => decide (v.getD 1 0 ≠ 0xe2))) := by
  constructor
  · intro hall
    unfold SetICCAppMarker
    rw [jl_icc_fold_keep icc markers hall []]
    simp
  · rintro pre a suf rfl hpre ha
    unfold SetICCAppMarker
    rw [List.foldl_append, jl_icc_fold_keep icc pre hpre [], List.foldl_cons,
      show ([] : List (List Nat)) ++ pre = pre by simp,
      iccFoldStep_first icc pre a ha, jl_icc_fold_added icc suf (pre ++ [icc])]
    simp

/-- C4 counterexample: with two APP2 entries already present, the rebuild
drops the second one instead of leaving it in place as the claim states. -/
theorem C4_counterexample :
    SetICCAppMarker [[0xff, 0xe2, 0, 2], [0xff, 0xe2, 0, 3]] [9, 9] = [[9, 9]] ∧
      SetICCAppMarker [[0xff, 0xe2, 0, 2], [0xff, 0xe2, 0, 3]] [9, 9] ≠
        [[9, 9], [0xff, 0xe2, 0, 3]] := by decide

/-- Witness instantiating `C4_set_icc_app_marker`. -/
theorem C4_set_icc_app_marker_witness :
    SetICCAppMarker [[0xff, 0xd8]] [5] = [[0xff, 0xd8], [5]] :=
  (C4_set_icc_app_marker [[0xff, 0xd8]] [5]).1 (by decide)

/-! ### C6: the `progressive_mode` flag -/

/-- C6: after the scan script is determined (user-supplied at
`start_compress`, or planner-generated in `finish_compress` when none was
installed), `progressive_mode` is true iff the first scan has `Ss ≠ 0` or
`Se ≠ 63`. -/
theorem C6_progressive_mode (scanInfo : Option (List ScanInfo)) (level maxShift ncomp : Nat)
    (_huser : ∀ s, scanInfo = some s → s ≠ []) (hncomp : 1 ≤ ncomp) :
    (startCompressProgressiveMode scanInfo level = true ↔
      (((determinedScanScript scanInfo level maxShift ncomp).getD 0 defaultScanInfo).Ss ≠ 0 ∨
       ((determinedScanScript scanInfo level maxShift ncomp).getD 0 defaultScanInfo).Se ≠ 63)) := by
  cases scanInfo with
  | some s => simp [startCompressProgressiveMode, determinedScanScript]
  | none =>
    obtain ⟨m, rfl⟩ : ∃ m, ncomp = m + 1 := ⟨ncomp - 1, by omega⟩
    match level with
    | 0 =>
      simp [startCompressProgressiveMode, determinedScanScript, SetDefaultScanScript,
        progressiveScans, scanInfosOfTemplate, defaultScanInfo]
    | 1 =>
      by_cases hms : maxShift > 0 <;>
        simp [startCompressProgressiveMode, determinedScanScript, SetDefaultScanScript,
          progressiveScans, scanInfosOfTemplate, hms, List.range_succ_eq_map]
    | (n + 2) =>
      by_cases hms : maxShift > 0 <;>
        simp [startCompressProgressiveMode, determinedScanScript, SetDefaultScanScript,
          progressiveScans, scanInfosOfTemplate, hms, List.range_succ_eq_map]

/-- Witness instantiating `C6_progressive_mode`. -/
theorem C6_progressive_mode_witness :
    startCompressProgressiveMode none 2 = true ↔
      (((determinedScanScript none 2 0 1).getD 0 defaultScanInfo).Ss ≠ 0 ∨
       ((determinedScanScript none 2 0 1).getD 0 defaultScanInfo).Se ≠ 63) :=
  C6_progressive_mode none 2 0 1 (fun _ h => nomatch h) (by decide)

/-! ### C7: sampling-factor validation in `start_compress` -/

theorem jl_findSome?_some {α β : Type} {f : α → Option β} :
    ∀ {l : List α} {b : β}, l.findSome? f = some b → ∃ a ∈ l, f a = some b := by
  intro l
  induction l with
  | nil => intro b h; simp [List.findSome?] at h
  | cons a t ih =>
    intro b h
    rw [List.findSome?_cons] at h
    cases hfa : f a with
    | some c =>
      simp [hfa] at h
      exact ⟨a, by simp, by rw [hfa, h]⟩
    | none =>
      simp [hfa] at h
      obtain ⟨x, hx, hfx⟩ := ih h
      exact ⟨x, by simp [hx], hfx⟩

/-- The per-component check, characterized: it passes iff the component is
square-sampled, divides `max_h_samp_factor`, and the ratio is a power of two
in `{1, 2, 4, 8}`. -/
theorem jl_check_comp_none_iff (maxH : Nat) (c : Nat × Nat) :
    checkCompSampling maxH c = none ↔
      (c.1 = c.2 ∧ maxH % c.1 = 0 ∧
        (maxH / c.1 = 1 ∨ maxH / c.1 = 2 ∨ maxH / c.1 = 4 ∨ maxH / c.1 = 8)) := by
  unfold checkCompSampling
  have hr : List.range 4 = [0, 1, 2, 3] := rfl
  split_ifs with h1 h2 h3
  · simp [h1]
  · simp only [h2]
    simp [h1, h2]
  · constructor
    · intro h; cases h
    · rintro ⟨-, -, hpow⟩
      rw [hr] at h3
      simp at h3
      omega
  · constructor
    · intro _
      refine ⟨by omega, by omega, ?_⟩
      rw [hr] at h3
      simp at h3
      omega
    · intro _; rfl

theorem jl_check_comp_us (maxH : Nat) (c : Nat × Nat)
    (h : checkCompSampling maxH c = some EncErr.unsupportedSubsampling) : c.1 ≠ c.2 := by
  unfold checkCompSampling at h
  split_ifs at h with h1 h2 h3
  · exact h1
  · cases h
  · cases h

theorem jl_check_comp_cases (maxH : Nat) (c : Nat × Nat) (e : EncErr)
    (h : checkCompSampling maxH c = some e) :
    e = EncErr.unsupportedSubsampling ∨ e = EncErr.nonIntegralSubsamplingRatio ∨
      e = EncErr.invalidSamplingFactor := by
  unfold checkCompSampling at h
  split_ifs at h with h1 h2 h3
  · exact Or.inl (Option.some.inj h).symm
  · exact Or.inr (Or.inl (Option.some.inj h).symm)
  · exact Or.inr (Or.inr (Option.some.inj h).symm)

/-- C7 (amended): validation succeeds iff every component is square-sampled
with a power-of-two ratio in `{1,2,4,8}` dividing `max_h_samp_factor`; an
`UnsupportedSubsampling` failure implies some component is non-square; and
when all components are square, the failure is `NonIntegralSubsamplingRatio`
or `InvalidSamplingFactor` iff some component violates divisibility or the
power-of-two condition.  (The error reported for mixed violations is that of
the first failing component, so `UnsupportedSubsampling` need not surface
whenever some component is non-square.) -/
theorem C7_sampling_validation (comps : List (Nat × Nat)) :
    (validateSamplingFactors comps = none ↔
      ∀ c ∈ comps, c.1 = c.2 ∧ maxHSampFactor comps % c.1 = 0 ∧
        (maxHSampFactor comps / c.1 = 1 ∨ maxHSampFactor comps / c.1 = 2 ∨
         maxHSampFactor comps / c.1 = 4 ∨ maxHSampFactor comps / c.1 = 8)) ∧
    (validateSamplingFactors comps = some EncErr.unsupportedSubsampling →
      ∃ c ∈ comps, c.1 ≠ c.2) ∧
    ((∀ c ∈ comps, c.1 = c.2) →
      ((validateSamplingFactors comps = some EncErr.nonIntegralSubsamplingRatio ∨
        validateSamplingFactors comps = some EncErr.invalidSamplingFactor) ↔
       ∃ c ∈ comps, ¬(maxHSampFactor comps % c.1 = 0 ∧
        (maxHSampFactor comps / c.1 = 1 ∨ maxHSampFactor comps / c.1 = 2 ∨
         maxHSampFactor comps / c.1 = 4 ∨ maxHSampFactor comps / c.1 = 8)))) := by
  refine ⟨?_, ?_, ?_⟩
  · rw [validateSamplingFactors, List.findSome?_eq_none_iff]
    constructor
    · intro h c hc
      exact (jl_check_comp_none_iff (maxHSampFactor comps) c).mp (h c hc)
    · intro h c hc
      exact (jl_check_comp_none_iff (maxHSampFactor comps) c).mpr (h c hc)
  · intro h
    obtain ⟨c, hc, hcheck⟩ := jl_findSome?_some h
    exact ⟨c, hc, jl_check_comp_us _ c hcheck⟩
  · intro hsq
    constructor
    · rintro (h | h) <;>
      · obtain ⟨c, hc, hcheck⟩ := jl_findSome?_some h
        refine ⟨c, hc, ?_⟩
        intro ⟨hmod, hpow⟩
        have : checkCompSampling (maxHSampFactor comps) c = none :=
          (jl_check_comp_none_iff _ c).mpr ⟨hsq c hc, hmod, hpow⟩
        rw [this] at hcheck
        cases hcheck
    · rintro ⟨c, hc, hbad⟩
      have hne : ¬ validateSamplingFactors comps = none := by
        rw [validateSamplingFactors, List.findSome?_eq_none_iff]
        intro hall
        have := (jl_check_comp_none_iff (maxHSampFactor comps) c).mp (hall c hc)
        exact hbad ⟨this.2.1, this.2.2⟩
      cases hv : validateSamplingFactors comps with
      | none => exact absurd hv hne
      | some e =>
        obtain ⟨c', hc', hcheck'⟩ := jl_findSome?_some hv
        rcases jl_check_comp_cases _ c' e hcheck' with he | he | he
        · exact absurd (jl_check_comp_us _ c' (he ▸ hcheck')) (by simp [hsq c' hc'])
        · exact Or.inl (by rw [he])
        · exact Or.inr (by rw [he])

/-- C7 counterexample: with components `(2,2)` and `(3,1)`, the loop reports
`NonIntegralSubsamplingRatio` for the first component even though the second
component is non-square, so "fails with `UnsupportedSubsampling` precisely
when some component has `h ≠ v`" is false. -/
theorem C7_counterexample :
    validateSamplingFactors [(2, 2), (3, 1)] = some EncErr.nonIntegralSubsamplingRatio ∧
      ¬ ((validateSamplingFactors [(2, 2), (3, 1)] = some EncErr.unsupportedSubsampling) ↔
          ∃ c ∈ [((2 : Nat), (2 : Nat)), (3, 1)], c.1 ≠ c.2) := by decide

/-- Witness instantiating `C7_sampling_validation`. -/
theorem C7_sampling_validation_witness :
    validateSamplingFactors [(2, 2), (1, 1)] = none :=
  (C7_sampling_validation [(2, 2), (1, 1)]).1.mpr (by decide)

/-! ### C8: `jpegli_write_m_header` -/

/-- C8 (amended): the length check runs first, so `InvalidMarkerLength` is
reported iff `datalen > 65533`, and `UnsupportedMarker` is reported iff
`datalen ≤ 65533` *and* the marker is neither COM (`0xFE`) nor APP0..APP15
(`0xE0..0xEF`); on success a fresh blob with the 4-byte prefix
`FF, marker, (datalen+2)>>8, (datalen+2)&0xFF` is appended and
`cur_marker_data` points at it. -/
theorem C8_write_m_header (st : MarkerState) (marker : Int) (datalen : Nat) :
    (jpegli_write_m_header st marker datalen = .error .invalidMarkerLength ↔
      datalen > 65533) ∧
    (jpegli_write_m_header st marker datalen = .error .unsupportedMarker ↔
      (datalen ≤ 65533 ∧ marker ≠ 0xfe ∧ (marker < 0xe0 ∨ marker > 0xef))) ∧
    (datalen ≤ 65533 → (marker = 0xfe ∨ (0xe0 ≤ marker ∧ marker ≤ 0xef)) →
      jpegli_write_m_header st marker datalen =
        .ok ⟨st.special_markers ++
              [[0xff, marker.toNat, (datalen + 2) / 256, (datalen + 2) % 256]],
             some st.special_markers.length⟩) := by
  unfold jpegli_write_m_header kMaxBytesInMarker
  split_ifs with h1 h2
  · refine ⟨by simp [h1], by simp; omega, by omega⟩
  · refine ⟨by simp; omega, by simp [h2]; omega, by intro _ hm; rcases hm with hm | hm <;> omega⟩
  · refine ⟨by simp; omega, by simp; omega, ?_⟩
    intro _ hm
    have hmod : marker % 256 = marker := by
      rcases hm with hm | hm <;> omega
    have hdiv : (datalen + 2) / 256 % 256 = (datalen + 2) / 256 := by omega
    rw [hmod, hdiv]

/-- C8 counterexample: with `datalen = 65534` and a marker outside
COM/APP0..APP15, the call fails with `InvalidMarkerLength`, so "fails with
`UnsupportedMarker` iff the marker is invalid" does not hold. -/
theorem C8_counterexample :
    jpegli_write_m_header ⟨[], none⟩ 0 65534 = .error .invalidMarkerLength ∧
      ¬ ((jpegli_write_m_header ⟨[], none⟩ 0 65534 = .error .unsupportedMarker) ↔
          ((0 : Int) ≠ 0xfe ∧ ((0 : Int) < 0xe0 ∨ (0 : Int) > 0xef))) := by
  constructor
  · rfl
  · intro hiff
    have h := hiff.mpr ⟨by decide, Or.inl (by decide)⟩
    rw [show jpegli_write_m_header ⟨[], none⟩ 0 65534 = .error .invalidMarkerLength from rfl]
      at h
    injection h with h'
    cases h'

/-- Witness instantiating `C8_write_m_header`. -/
theorem C8_write_m_header_witness :
    jpegli_write_m_header ⟨[], none⟩ 0xe5 3 =
      .ok ⟨[[0xff, (0xe5 : Int).toNat, (3 + 2) / 256, (3 + 2) % 256]], some 0⟩ :=
  (C8_write_m_header ⟨[], none⟩ 0xe5 3).2.2 (by omega) (Or.inr (by constructor <;> decide))

/-! ### C10: `jpegli_write_m_byte` -/

/-- C10: with an open marker blob, `write_m_byte(v)` never fails and appends
exactly one byte, the low 8 bits `v mod 256` of the `int` argument (values
outside `[0, 255]` are truncated, not rejected); all other blobs are
untouched. -/
theorem C10_write_m_byte (st : MarkerState) (v : Int) (idx : Nat)
    (hcur : st.cur_marker = some idx) (hidx : idx < st.special_markers.length) :
    ∃ st', jpegli_write_m_byte st v = .ok st' ∧
      st'.special_markers.length = st.special_markers.length ∧
      st'.cur_marker = st.cur_marker ∧
      st'.special_markers.getD idx [] =
        st.special_markers.getD idx [] ++ [(v % 256).toNat] ∧
      (st'.special_markers.getD idx []).length =
        (st.special_markers.getD idx []).length + 1 ∧
      (∀ j, j ≠ idx → st'.special_markers.getD j [] = st.special_markers.getD j []) ∧
      ((v % 256).toNat : Int) = v % 256 ∧ (v % 256).toNat < 256 := by
  refine ⟨⟨st.special_markers.set idx
      ((st.special_markers.getD idx []) ++ [(v % 256).toNat]), some idx⟩, ?_, ?_, ?_, ?_, ?_, ?_, ?_, ?_⟩
  · unfold jpegli_write_m_byte
    rw [hcur]
  · simp
  · rw [hcur]
  · simp only [List.getD_eq_getElem?_getD, List.getElem?_set_self hidx]
    rfl
  · simp only [List.getD_eq_getElem?_getD, List.getElem?_set_self hidx]
    simp
  · intro j hj
    simp only [List.getD_eq_getElem?_getD, List.getElem?_set_ne (fun h => hj h.symm)]
  · have : 0 ≤ v % 256 := Int.emod_nonneg v (by norm_num)
    omega
  · have h1 : v % 256 < 256 := Int.emod_lt_of_pos v (by norm_num)
    have : 0 ≤ v % 256 := Int.emod_nonneg v (by norm_num)
    omega

/-- Witness instantiating `C10_write_m_byte` at `v = -1` (truncates to 255). -/
theorem C10_write_m_byte_witness :
    ∃ st', jpegli_write_m_byte ⟨[[1]], some 0⟩ (-1) = .ok st' ∧
      st'.special_markers.length = ([[1]] : List (List Nat)).length ∧
      st'.cur_marker = (⟨[[1]], some 0⟩ : MarkerState).cur_marker ∧
      st'.special_markers.getD 0 [] = [1] ++ [((-1 : Int) % 256).toNat] ∧
      (st'.special_markers.getD 0 []).length = ([1] : List Nat).length + 1 ∧
      (∀ j, j ≠ 0 → st'.special_markers.getD j [] =
        ([[1]] : List (List Nat)).getD j []) ∧
      ((((-1 : Int) % 256).toNat : Int) = (-1 : Int) % 256) ∧
      ((-1 : Int) % 256).toNat < 256 :=
  C10_write_m_byte ⟨[[1]], some 0⟩ (-1) 0 rfl (by decide)

/-! ### Pointwise characterization of the scanline stager -/

theorem stageRow_spec (dt : JpegliDataType) (isLE : Bool) (ncomp : Nat) (row : List Nat)
    (c y : Nat) (p : Plane) :
    ∀ w c' y' x', stageRow dt isLE ncomp row c y p w c' y' x' =
      if c' = c ∧ y' = y ∧ x' < w then sampleValue dt isLE ncomp row c x' else p c' y' x' := by
  intro w
  induction w with
  | zero =>
    intro c' y' x'
    rw [if_neg (by rintro ⟨-, -, hx⟩; omega)]
    rfl
  | succ w ih =>
    intro c' y' x'
    show setSample (stageRow dt isLE ncomp row c y p w) c y w
        (sampleValue dt isLE ncomp row c w) c' y' x' = _
    unfold setSample
    rw [ih c' y' x']
    by_cases h1 : c' = c ∧ y' = y ∧ x' = w
    · obtain ⟨rfl, rfl, rfl⟩ := h1
      rw [if_pos ⟨rfl, rfl, rfl⟩, if_pos ⟨rfl, rfl, by omega⟩]
    · rw [if_neg h1]
      by_cases h2 : c' = c ∧ y' = y ∧ x' < w
      · obtain ⟨rfl, rfl, h2x⟩ := h2
        rw [if_pos ⟨rfl, rfl, h2x⟩, if_pos ⟨rfl, rfl, by omega⟩]
      · rw [if_neg h2, if_neg (fun h3 => by
          obtain ⟨hc, hy, hx⟩ := h3
          rcases Nat.lt_succ_iff_lt_or_eq.mp hx with hlt | heq
          · exact h2 ⟨hc, hy, hlt⟩
          · exact h1 ⟨hc, hy, heq⟩)]

theorem stageLines_spec (dt : JpegliDataType) (isLE : Bool) (ncomp width : Nat)
    (rows : List (List Nat)) (c next : Nat) (p : Plane) :
    ∀ i c' y' x', stageLines dt isLE ncomp width rows c next p i c' y' x' =
      if c' = c ∧ next ≤ y' ∧ y' < next + i ∧ x' < width then
        sampleValue dt isLE ncomp (rows.getD (y' - next) []) c x'
      else p c' y' x' := by
  intro i
  induction i with
  | zero =>
    intro c' y' x'
    rw [if_neg (by rintro ⟨-, h1, h2, -⟩; omega)]
    rfl
  | succ i ih =>
    intro c' y' x'
    show stageRow dt isLE ncomp (rows.getD i []) c (next + i)
        (stageLines dt isLE ncomp width rows c next p i) width c' y' x' = _
    rw [stageRow_spec, ih c' y' x']
    by_cases h1 : c' = c ∧ y' = next + i ∧ x' < width
    · obtain ⟨rfl, h1y, h1x⟩ := h1
      rw [if_pos ⟨rfl, h1y, h1x⟩, if_pos ⟨rfl, by omega, by omega, h1x⟩, h1y,
        Nat.add_sub_cancel_left]
    · rw [if_neg h1]
      by_cases h2 : c' = c ∧ next ≤ y' ∧ y' < next + i ∧ x' < width
      · obtain ⟨rfl, h2a, h2b, h2c⟩ := h2
        rw [if_pos ⟨rfl, h2a, h2b, h2c⟩, if_pos ⟨rfl, h2a, by omega, h2c⟩]
      · rw [if_neg h2, if_neg (fun h3 => by
          obtain ⟨hc, ha, hb, hx⟩ := h3
          by_cases hy : y' = next + i
          · exact h1 ⟨hc, hy, hx⟩
          · exact h2 ⟨hc, ha, by omega, hx⟩)]

theorem stageComps_spec (dt : JpegliDataType) (isLE : Bool) (ncomp width : Nat)
    (rows : List (List Nat)) (next n : Nat) (p : Plane) :
    ∀ k c' y' x', stageComps dt isLE ncomp width rows next n p k c' y' x' =
      if c' < k ∧ next ≤ y' ∧ y' < next + n ∧ x' < width then
        sampleValue dt isLE ncomp (rows.getD (y' - next) []) c' x'
      else p c' y' x' := by
  intro k
  induction k with
  | zero =>
    intro c' y' x'
    rw [if_neg (by rintro ⟨h1, -, -, -⟩; omega)]
    rfl
  | succ k ih =>
    intro c' y' x'
    show stageLines dt isLE ncomp width rows k next
        (stageComps dt isLE ncomp width rows next n p k) n c' y' x' = _
    rw [stageLines_spec, ih c' y' x']
    by_cases h1 : c' = k ∧ next ≤ y' ∧ y' < next + n ∧ x' < width
    · obtain ⟨rfl, h1a, h1b, h1c⟩ := h1
      rw [if_pos ⟨rfl, h1a, h1b, h1c⟩, if_pos ⟨by omega, h1a, h1b, h1c⟩]
    · rw [if_neg h1]
      by_cases h2 : c' < k ∧ next ≤ y' ∧ y' < next + n ∧ x' < width
      · obtain ⟨h2a, h2b, h2c, h2d⟩ := h2
        rw [if_pos ⟨h2a, h2b, h2c, h2d⟩, if_pos ⟨by omega, h2b, h2c, h2d⟩]
      · rw [if_neg h2, if_neg (fun h3 => by
          obtain ⟨hc, ha, hb, hx⟩ := h3
          by_cases hck : c' = k
          · exact h1 ⟨hck, ha, hb, hx⟩
          · exact h2 ⟨by omega, ha, hb, hx⟩)]

/-- `jpegli_write_scanlines` on an in-range batch: no truncation happens, the
`n` rows are staged at `next_scanline`, and the cursor advances by `n`. -/
theorem write_scanlines_ok (st : ScanlineState) (rows : List (List Nat)) (n : Nat)
    (hc : st.num_components ≤ 3) (hle : st.next_scanline + n ≤ st.image_height)
    (hh : st.image_height < 2 ^ 32) :
    jpegli_write_scanlines st rows n =
      .ok ({ st with
              planes := stageComps st.data_type st.isLittleEndian st.num_components
                st.image_width rows st.next_scanline n st.planes st.num_components,
              next_scanline := st.next_scanline + n }, n) := by
  have h1 : ¬ 3 < st.num_components := by omega
  have h2 : (n + st.next_scanline) % 2 ^ 32 = n + st.next_scanline :=
    Nat.mod_eq_of_lt (by omega)
  have h3 : ¬ n + st.next_scanline > st.image_height := by omega
  have h4 : (st.next_scanline + n) % 2 ^ 32 = st.next_scanline + n :=
    Nat.mod_eq_of_lt (by omega)
  simp only [jpegli_write_scanlines, if_neg h1, h2, if_neg h3, h4]

/-! ### C5: truncation and cursor advance in `write_scanlines` -/

/-- C5 (amended): provided the 32-bit sum `next_scanline + n` does not wrap
(`next_scanline + n < 2^32`), `write_scanlines` truncates `n` to
`image_height - next_scanline` when `next_scanline + n` would exceed
`image_height`, advances `next_scanline` by exactly the truncated count,
returns it, and preserves `next_scanline ≤ image_height`. -/
theorem C5_write_scanlines_truncation (st : ScanlineState) (rows : List (List Nat))
    (numLines : Nat) (hns : st.next_scanline ≤ st.image_height)
    (hc : st.num_components ≤ 3) (hh : st.image_height < 2 ^ 32)
    (hof : st.next_scanline + numLines < 2 ^ 32) :
    ∃ st', jpegli_write_scanlines st rows numLines =
        .ok (st', if st.next_scanline + numLines > st.image_height then
                    st.image_height - st.next_scanline
                  else numLines) ∧
      st'.next_scanline = st.next_scanline +
        (if st.next_scanline + numLines > st.image_height then
           st.image_height - st.next_scanline
         else numLines) ∧
      st'.next_scanline ≤ st.image_height := by
  by_cases hgt : st.next_scanline + numLines > st.image_height
  · have htr : (if st.next_scanline + numLines > st.image_height then
        st.image_height - st.next_scanline else numLines) =
        st.image_height - st.next_scanline := if_pos hgt
    have hcall : jpegli_write_scanlines st rows numLines =
        .ok ({ st with
                planes := stageComps st.data_type st.isLittleEndian st.num_components
                  st.image_width rows st.next_scanline
                  (st.image_height - st.next_scanline) st.planes st.num_components,
                next_scanline :=
                  (st.next_scanline + (st.image_height - st.next_scanline)) % 2 ^ 32 },
             st.image_height - st.next_scanline) := by
      have h1 : ¬ 3 < st.num_components := by omega
      have h2 : (numLines + st.next_scanline) % 2 ^ 32 = numLines + st.next_scanline :=
        Nat.mod_eq_of_lt (by omega)
      have h3 : numLines + st.next_scanline > st.image_height := by omega
      simp only [jpegli_write_scanlines, if_neg h1, h2, if_pos h3]
    rw [htr]
    refine ⟨_, hcall, ?_, ?_⟩
    · show (st.next_scanline + (st.image_height - st.next_scanline)) % 2 ^ 32 = _
      rw [Nat.mod_eq_of_lt (by omega)]
    · show (st.next_scanline + (st.image_height - st.next_scanline)) % 2 ^ 32 ≤ _
      rw [Nat.mod_eq_of_lt (by omega)]
      omega
  · have htr : (if st.next_scanline + numLines > st.image_height then
        st.image_height - st.next_scanline else numLines) = numLines := if_neg hgt
    rw [htr]
    refine ⟨_, write_scanlines_ok st rows numLines hc (by omega) hh, by simp, by simp; omega⟩

/-- C5 counterexample: the source compares `num_lines + next_scanline` in
32-bit arithmetic, so with `next_scanline = 5`, `image_height = 10` and
`n = 2^32 - 3` the sum wraps to 2, no truncation happens, and the call
returns `4294967293` and sets `next_scanline = 2` instead of returning the
truncated count `10 - 5 = 5`. -/
theorem C5_counterexample :
    (jpegli_write_scanlines ⟨0, 0, 10, 5, .u8, true, fun _ _ _ => 0⟩ [] 4294967293).map
        (fun r => (r.1.next_scanline, r.2)) = .ok (2, 4294967293) ∧
      5 + 4294967293 > 10 ∧ (4294967293 : Nat) ≠ 10 - 5 := by
  refine ⟨?_, by norm_num, by norm_num⟩
  rfl

/-- Witness instantiating `C5_write_scanlines_truncation`. -/
theorem C5_write_scanlines_truncation_witness :
    ∃ st', jpegli_write_scanlines ⟨1, 1, 2, 1, .u8, true, fun _ _ _ => 0⟩ [[7]] 9 =
        .ok (st', if 1 + 9 > 2 then 2 - 1 else 9) ∧
      st'.next_scanline = 1 + (if 1 + 9 > 2 then 2 - 1 else 9) ∧
      st'.next_scanline ≤ 2 :=
  C5_write_scanlines_truncation ⟨1, 1, 2, 1, .u8, true, fun _ _ _ => 0⟩ [[7]] 9
    (by norm_num) (by norm_num) (by norm_num) (by norm_num)

/-! ### C9: splitting a scanline batch -/

/-- C9: for an in-range batch of `n` rows and any split point `k ≤ n`, one
`write_scanlines` call with all `n` rows produces the same plane contents and
the same final `next_scanline` as a call with the first `k` rows followed by a
call with the remaining `n - k` rows; the two calls consume `k` and `n - k`
lines respectively. -/
theorem C9_write_scanlines_split (st : ScanlineState) (rows : List (List Nat)) (n k : Nat)
    (hc : st.num_components ≤ 3) (hh : st.image_height < 2 ^ 32)
    (hle : st.next_scanline + n ≤ st.image_height) (hk : k ≤ n)
    (hrows : rows.length = n) :
    ∃ stAll st1 st2,
      jpegli_write_scanlines st rows n = .ok (stAll, n) ∧
      jpegli_write_scanlines st (rows.take k) k = .ok (st1, k) ∧
      jpegli_write_scanlines st1 (rows.drop k) (n - k) = .ok (st2, n - k) ∧
      st2 = stAll := by
  obtain ⟨nc, w, h, ns, dt, le, p⟩ := st
  simp only at hc hh hle
  refine ⟨_, _, _, write_scanlines_ok _ rows n hc hle hh,
    write_scanlines_ok _ (rows.take k) k hc (by show ns + k ≤ h; omega) hh,
    write_scanlines_ok _ (rows.drop k) (n - k) hc (by show ns + k + (n - k) ≤ h; omega) hh,
    ?_⟩
  show ScanlineState.mk nc w h (ns + k + (n - k)) dt le
      (stageComps dt le nc w (rows.drop k) (ns + k) (n - k)
        (stageComps dt le nc w (rows.take k) ns k p nc) nc) =
    ScanlineState.mk nc w h (ns + n) dt le (stageComps dt le nc w rows ns n p nc)
  rw [show ns + k + (n - k) = ns + n from by omega]
  congr 1
  · funext c' y' x'
    rw [stageComps_spec, stageComps_spec, stageComps_spec]
    by_cases hA : c' < nc ∧ ns + k ≤ y' ∧ y' < ns + k + (n - k) ∧ x' < w
    · obtain ⟨hA1, hA2, hA3, hA4⟩ := hA
      rw [if_pos ⟨hA1, hA2, hA3, hA4⟩, if_pos ⟨hA1, by omega, by omega, hA4⟩]
      have hdrop : (rows.drop k).getD (y' - (ns + k)) [] = rows.getD (y' - ns) [] := by
        rw [List.getD_eq_getElem?_getD, List.getD_eq_getElem?_getD, List.getElem?_drop,
          show k + (y' - (ns + k)) = y' - ns from by omega]
      rw [hdrop]
    · rw [if_neg hA]
      by_cases hB : c' < nc ∧ ns ≤ y' ∧ y' < ns + k ∧ x' < w
      · obtain ⟨hB1, hB2, hB3, hB4⟩ := hB
        rw [if_pos ⟨hB1, hB2, hB3, hB4⟩, if_pos ⟨hB1, hB2, by omega, hB4⟩]
        have htake : (rows.take k).getD (y' - ns) [] = rows.getD (y' - ns) [] := by
          rw [List.getD_eq_getElem?_getD, List.getD_eq_getElem?_getD,
            List.getElem?_take, if_pos (by omega)]
        rw [htake]
      · rw [if_neg hB, if_neg (fun h3 => by
          obtain ⟨h31, h32, h33, h34⟩ := h3
          by_cases hy : y' < ns + k
          · exact hB ⟨h31, h32, hy, h34⟩
          · exact hA ⟨h31, by omega, by omega, h34⟩)]

/-- Witness instantiating `C9_write_scanlines_split`. -/
theorem C9_write_scanlines_split_witness :
    ∃ stAll st1 st2,
      jpegli_write_scanlines ⟨1, 1, 2, 0, .u8, true, fun _ _ _ => 0⟩ [[5], [9]] 2 =
        .ok (stAll, 2) ∧
      jpegli_write_scanlines ⟨1, 1, 2, 0, .u8, true, fun _ _ _ => 0⟩
          (([[5], [9]] : List (List Nat)).take 1) 1 = .ok (st1, 1) ∧
      jpegli_write_scanlines st1 (([[5], [9]] : List (List Nat)).drop 1) (2 - 1) =
        .ok (st2, 2 - 1) ∧
      st2 = stAll :=
  C9_write_scanlines_split ⟨1, 1, 2, 0, .u8, true, fun _ _ _ => 0⟩ [[5], [9]] 2 1
    (by norm_num) (by norm_num) (by norm_num) (by norm_num) (by norm_num)

/-! ### Closed form of `jpegli_write_icc_profile` -/

/-- The `current_marker`-th data chunk of the ICC payload. -/
def iccChunk (icc : List Nat) (j : Nat) : List Nat :=
  (icc.drop (j * kMaxIccBytesInMarker)).take kMaxIccBytesInMarker

/-- The complete APP2 blob produced for the `j`-th chunk (0-based `j`):
4-byte marker head, 12-byte signature, 1-based sequence number, chunk count,
data. -/
def iccMarkerBlob (icc : List Nat) (numMarkers j : Nat) : List Nat :=
  [0xff, 0xe2, ((iccChunk icc j).length + 16) / 256 % 256,
    ((iccChunk icc j).length + 16) % 256] ++
  kICCSigList ++ [(j + 1) % 256, numMarkers % 256] ++ iccChunk icc j

theorem write_m_byte_open (pre : List (List Nat)) (blob : List Nat) (v : Int) :
    jpegli_write_m_byte ⟨pre ++ [blob], some pre.length⟩ v =
      .ok ⟨pre ++ [blob ++ [(v % 256).toNat]], some pre.length⟩ := by
  unfold jpegli_write_m_byte
  simp only
  rw [jl_getD_length_append pre [blob] []]
  simp only [List.getD_cons_zero]
  rw [jl_set_length_append pre [blob] (blob ++ [(v % 256).toNat])]
  rfl

theorem writeMBytes_open (l : List Nat) :
    ∀ (pre : List (List Nat)) (blob : List Nat),
      writeMBytes ⟨pre ++ [blob], some pre.length⟩ l =
        .ok ⟨pre ++ [blob ++ l.map (fun b => b % 256)], some pre.length⟩ := by
  induction l with
  | nil =>
    intro pre blob
    simp only [writeMBytes, List.foldlM_nil, List.map_nil, List.append_nil]
    rfl
  | cons b t ih =>
    intro pre blob
    unfold writeMBytes
    rw [List.foldlM_cons, write_m_byte_open pre blob (b : Int)]
    show writeMBytes ⟨pre ++ [blob ++ [((b : Int) % 256).toNat]], some pre.length⟩ t = _
    rw [ih pre (blob ++ [((b : Int) % 256).toNat])]
    rw [jl_int_byte b]
    simp

theorem write_m_header_icc (st : MarkerState) (d : Nat) (hd : d ≤ 65533) :
    jpegli_write_m_header st (kICCMarker : Int) d =
      .ok ⟨st.special_markers ++ [[0xff, 0xe2, (d + 2) / 256 % 256, (d + 2) % 256]],
           some st.special_markers.length⟩ := by
  unfold jpegli_write_m_header kMaxBytesInMarker
  rw [if_neg (by omega), if_neg (by decide)]
  norm_num [kICCMarker]
  rfl

theorem jl_divCeil_mul_lt (L s cur : Nat) (hs : 0 < s)
    (hcur : cur < divCeil L s) : cur * s < L := by
  unfold divCeil at hcur
  have h1 : cur + 1 ≤ (L + s - 1) / s := hcur
  have h2 : (cur + 1) * s ≤ L + s - 1 := (Nat.le_div_iff_mul_le hs).mp h1
  have h3 : cur * s + s ≤ L + s - 1 := by rw [Nat.succ_mul] at h2; omega
  omega

/-- Closed form of the ICC marker loop: starting at marker `cur` with
`begin = cur * kMaxIccBytesInMarker` (clamped to the data length), the
remaining `r` markers are appended, each the blob of its chunk. -/
theorem writeIccLoop_eq (icc : List Nat) (hb : ∀ b ∈ icc, b < 256) :
    ∀ (r cur : Nat) (st : MarkerState),
      cur + r = divCeil icc.length kMaxIccBytesInMarker →
      writeIccLoop icc (divCeil icc.length kMaxIccBytesInMarker) cur
          (min (cur * kMaxIccBytesInMarker) icc.length) st =
        .ok ⟨st.special_markers ++ (List.range' cur r).map
              (iccMarkerBlob icc (divCeil icc.length kMaxIccBytesInMarker)),
             if 0 < r then some (st.special_markers.length + r - 1) else st.cur_marker⟩ := by
  intro r
  induction r with
  | zero =>
    intro cur st hsum
    rw [writeIccLoop, if_neg (by omega)]
    simp
  | succ r ih =>
    intro cur st hsum
    have hs : 0 < kMaxIccBytesInMarker := by
      norm_num [kMaxIccBytesInMarker, kMaxBytesInMarker]
    have hcur : cur < divCeil icc.length kMaxIccBytesInMarker := by omega
    have hcs : cur * kMaxIccBytesInMarker < icc.length :=
      jl_divCeil_mul_lt _ _ _ hs hcur
    have hmin : min (cur * kMaxIccBytesInMarker) icc.length =
        cur * kMaxIccBytesInMarker := min_eq_left (by omega)
    rw [writeIccLoop, if_pos hcur, hmin]
    have hlenle : min kMaxIccBytesInMarker (icc.length - cur * kMaxIccBytesInMarker) ≤
        kMaxIccBytesInMarker := min_le_left _ _
    have hchunk : (icc.drop (cur * kMaxIccBytesInMarker)).take
        (min kMaxIccBytesInMarker (icc.length - cur * kMaxIccBytesInMarker)) =
        iccChunk icc cur := by
      rw [iccChunk, show icc.length - cur * kMaxIccBytesInMarker =
          (icc.drop (cur * kMaxIccBytesInMarker)).length from (List.length_drop _ _).symm,
        jl_take_min_length]
    have hchunklen : (iccChunk icc cur).length =
        min kMaxIccBytesInMarker (icc.length - cur * kMaxIccBytesInMarker) := by
      rw [← hchunk, List.length_take, List.length_drop]
      omega
    have hd : min kMaxIccBytesInMarker (icc.length - cur * kMaxIccBytesInMarker) + 12 + 2
        ≤ 65533 := by
      norm_num [kMaxIccBytesInMarker, kMaxBytesInMarker] at hlenle ⊢
      omega
    simp only []
    rw [write_m_header_icc st _ hd]
    have hsig : kICCSigList.map (fun b => b % 256) = kICCSigList := by decide
    have hmemb : ∀ b ∈ iccChunk icc cur, b < 256 := fun b hbmem =>
      hb b (List.mem_of_mem_drop (List.mem_of_mem_take hbmem))
    have hmap : (iccChunk icc cur).map (fun b => b % 256) = iccChunk icc cur :=
      jl_map_mod_self _ hmemb
    have hc1 : ((cur : Int) + 1) = ((cur + 1 : Nat) : Int) := by push_cast; ring
    simp only [writeMBytes_open, write_m_byte_open, hsig, hc1, jl_int_byte, hchunk, hmap]
    have hstart : cur * kMaxIccBytesInMarker +
        min kMaxIccBytesInMarker (icc.length - cur * kMaxIccBytesInMarker) =
        min ((cur + 1) * kMaxIccBytesInMarker) icc.length := by
      rw [Nat.succ_mul]
      rcases Nat.le_total kMaxIccBytesInMarker (icc.length - cur * kMaxIccBytesInMarker)
        with hle | hle
      · rw [min_eq_left hle, min_eq_left (by omega)]
      · rw [min_eq_right hle, min_eq_right (by omega)]
        omega
    rw [hstart, ih (cur + 1) _ (by omega)]
    rw [List.range'_succ, List.map_cons]
    simp only [Except.ok.injEq, MarkerState.mk.injEq]
    constructor
    · rw [iccMarkerBlob, hchunklen,
        show kMaxIccBytesInMarker ⊓ (icc.length - cur * kMaxIccBytesInMarker) + 12 + 2 + 2 =
          kMaxIccBytesInMarker ⊓ (icc.length - cur * kMaxIccBytesInMarker) + 16 from by omega]
      simp [List.append_assoc]
    · rcases Nat.eq_zero_or_pos r with rfl | hr
      · simp
      · rw [if_pos hr, if_pos (by omega)]
        simp only [List.length_append, List.length_cons, List.length_nil]
        congr 1
        omega

/-- Closed form of `jpegli_write_icc_profile`: one APP2 blob per chunk of
`kMaxIccBytesInMarker = 65519` data bytes. -/
theorem write_icc_profile_eq (st : MarkerState) (icc : List Nat)
    (hb : ∀ b ∈ icc, b < 256) :
    jpegli_write_icc_profile st icc =
      .ok ⟨st.special_markers ++
            (List.range (divCeil icc.length kMaxIccBytesInMarker)).map
              (iccMarkerBlob icc (divCeil icc.length kMaxIccBytesInMarker)),
           if 0 < divCeil icc.length kMaxIccBytesInMarker then
             some (st.special_markers.length +
               divCeil icc.length kMaxIccBytesInMarker - 1)
           else st.cur_marker⟩ := by
  have h := writeIccLoop_eq icc hb (divCeil icc.length kMaxIccBytesInMarker) 0 st (by omega)
  rw [show min (0 * kMaxIccBytesInMarker) icc.length = 0 from by simp] at h
  unfold jpegli_write_icc_profile
  rw [List.range_eq_range']
  exact h

/-- C2 (amended): `write_icc_profile` splits the data into chunks of at most
`65519 = 65533 - 12 - 2` bytes (12-byte signature plus the 2 sequence/count
bytes), emitting `ceil(len / 65519)` markers, each blob of size
`18 + chunk ≤ 18 + 65519`. -/
theorem C2_write_icc_profile_chunks (st : MarkerState) (icc : List Nat)
    (hb : ∀ b ∈ icc, b < 256) :
    ∃ st', jpegli_write_icc_profile st icc = .ok st' ∧
      st'.special_markers.length =
        st.special_markers.length + divCeil icc.length kMaxIccBytesInMarker ∧
      kMaxIccBytesInMarker = 65519 ∧
      ∀ m ∈ st'.special_markers.drop st.special_markers.length,
        18 ≤ m.length ∧ m.length ≤ 18 + kMaxIccBytesInMarker := by
  refine ⟨_, write_icc_profile_eq st icc hb, ?_, rfl, ?_⟩
  · simp
  · intro m hm
    simp only [List.drop_left] at hm
    obtain ⟨j, hj, rfl⟩ := List.mem_map.mp hm
    unfold iccMarkerBlob
    have hch : (iccChunk icc j).length ≤ kMaxIccBytesInMarker := by
      unfold iccChunk
      simp
    simp [kICCSigList]
    omega

/-- C2 counterexample: for a 65518-byte payload the source emits a single
marker (the chunk limit is `65519 = 65533 - 14`), while the claim's
`ceil(len / 65517)` would require two markers. -/
theorem C2_counterexample :
    ∃ st', jpegli_write_icc_profile ⟨[], none⟩ (List.replicate 65518 0) = .ok st' ∧
      st'.special_markers.length = 1 ∧ (65518 + 65517 - 1) / 65517 = 2 ∧ (1 : Nat) ≠ 2 := by
  have hb : ∀ b ∈ List.replicate 65518 (0 : Nat), b < 256 := by
    intro b hbm
    rw [List.eq_of_mem_replicate hbm]
    norm_num
  refine ⟨_, write_icc_profile_eq ⟨[], none⟩ (List.replicate 65518 0) hb, ?_, by norm_num, by norm_num⟩
  have hN : divCeil (List.replicate 65518 (0 : Nat)).length kMaxIccBytesInMarker = 1 := by
    rw [List.length_replicate]
    norm_num [divCeil, kMaxIccBytesInMarker, kMaxBytesInMarker]
  simp only [hN, List.nil_append, List.length_map, List.length_range]

/-- Witness instantiating `C2_write_icc_profile_chunks`. -/
theorem C2_write_icc_profile_chunks_witness :
    ∃ st', jpegli_write_icc_profile ⟨[], none⟩ [7] = .ok st' ∧
      st'.special_markers.length =
        ([] : List (List Nat)).length + divCeil ([7] : List Nat).length kMaxIccBytesInMarker ∧
      kMaxIccBytesInMarker = 65519 ∧
      ∀ m ∈ st'.special_markers.drop ([] : List (List Nat)).length,
        18 ≤ m.length ∧ m.length ≤ 18 + kMaxIccBytesInMarker :=
  C2_write_icc_profile_chunks ⟨[], none⟩ [7] (by decide)

/-! ### Round trip through `ParseChunkedMarker` -/

/-- The marker blob holding chunk `ch` with 1-based sequence number `j + 1`
out of `N`, as seen by the parser (length bytes not yet reduced mod 256). -/
def mkChunkMarker (N j : Nat) (ch : List Nat) : List Nat :=
  [0xff, 0xe2, (ch.length + 16) / 256, (ch.length + 16) % 256] ++
    kICCSigList ++ [j + 1, N] ++ ch

/-- The parser's `chunks` vector after the first `j` of `N` chunks (index 0
unused). -/
def chunkArr (C : List (List Nat)) (N j : Nat) : List (List Nat) :=
  [] :: (C.take j ++ List.replicate (N - j) [])

/-- The parser's `presence` vector after the first `j` of `N` chunks. -/
def presArr (N j : Nat) : List Bool :=
  false :: (List.replicate j true ++ List.replicate (N - j) false)

/-- The parser state after consuming the first `j` of `N` well-formed chunk
markers. -/
def goodChunkState (C : List (List Nat)) (N j : Nat) : ChunkState :=
  if j = 0 then ⟨[], [], 0, true, 0⟩ else ⟨chunkArr C N j, presArr N j, N, false, j⟩

theorem mkChunkMarker_cons (N j : Nat) (ch : List Nat) :
    mkChunkMarker N j ch = 0xff :: 0xe2 :: ((ch.length + 16) / 256) ::
      ((ch.length + 16) % 256) :: 0x49 :: 0x43 :: 0x43 :: 0x5F :: 0x50 :: 0x52 ::
      0x4F :: 0x46 :: 0x49 :: 0x4C :: 0x45 :: 0x00 :: (j + 1) :: N :: ch := by
  simp [mkChunkMarker, kICCSigList]

theorem presArr_getD (N j : Nat) (hj : j < N) :
    (presArr N j).getD (j + 1) false = false := by
  unfold presArr
  rw [List.getD_cons_succ,
    List.getD_append_right _ _ _ _ (by rw [List.length_replicate])]
  rw [List.length_replicate, Nat.sub_self,
    show N - j = (N - (j + 1)) + 1 from by omega, List.replicate_succ]
  rfl

theorem jl_set_eq_of_length (l1 l2 : List α) (v : α) (i : Nat) (hi : i = l1.length) :
    (l1 ++ l2).set i v = l1 ++ l2.set 0 v := by
  subst hi
  exact jl_set_length_append l1 l2 v

theorem presArr_set (N j : Nat) (hj : j < N) :
    (presArr N j).set (j + 1) true = presArr N (j + 1) := by
  unfold presArr
  rw [List.set_cons_succ]
  have h1 : (List.replicate j true ++ List.replicate (N - j) false).set j true =
      List.replicate j true ++ (List.replicate (N - j) false).set 0 true :=
    jl_set_eq_of_length _ _ _ j (List.length_replicate _ _).symm
  rw [h1, show N - j = (N - (j + 1)) + 1 from by omega, List.replicate_succ,
    List.set_cons_zero,
    show List.replicate (j + 1) true = List.replicate j true ++ [true] from
      List.replicate_succ' j true]
  simp

theorem chunkArr_set (C : List (List Nat)) (N j : Nat) (hN : C.length = N) (hj : j < N) :
    (chunkArr C N j).set (j + 1) (C.getD j []) = chunkArr C N (j + 1) := by
  unfold chunkArr
  rw [List.set_cons_succ]
  have hlt : (C.take j).length = j := by rw [List.length_take]; omega
  have h1 : (C.take j ++ List.replicate (N - j) []).set j (C.getD j []) =
      C.take j ++ (List.replicate (N - j) []).set 0 (C.getD j []) :=
    jl_set_eq_of_length _ _ _ j hlt.symm
  rw [h1, show N - j = (N - (j + 1)) + 1 from by omega, List.replicate_succ,
    List.set_cons_zero, jl_take_succ_getD C j [] (by omega)]
  simp

theorem goodChunkState_ordinal (C : List (List Nat)) (N j : Nat) :
    (goodChunkState C N j).ordinal = j := by
  unfold goodChunkState
  split_ifs with h
  · rw [h]
  · rfl

/-- Processing the `j`-th well-formed chunk marker advances the parser state
from `j` to `j + 1` consumed chunks. -/
theorem processChunkMarker_step (C : List (List Nat)) (N j : Nat) (hN : C.length = N)
    (hj : j < N) :
    processChunkMarker 0xe2 kICCSigList false (goodChunkState C N j)
        (mkChunkMarker N j (C.getD j [])) = .ok (goodChunkState C N (j + 1)) := by
  have hpay : GetMarkerPayload (mkChunkMarker N j (C.getD j [])) =
      some (kICCSigList ++ (j + 1) :: N :: C.getD j []) := by
    rw [mkChunkMarker_cons]
    unfold GetMarkerPayload
    rw [if_neg (by simp)]
    rw [if_neg (by
      simp only [List.getD_cons_succ, List.getD_cons_zero, List.length_cons]
      omega)]
    rw [show kICCSigList ++ (j + 1) :: N :: C.getD j [] =
      0x49 :: 0x43 :: 0x43 :: 0x5F :: 0x50 :: 0x52 :: 0x4F :: 0x46 :: 0x49 :: 0x4C ::
      0x45 :: 0x00 :: (j + 1) :: N :: C.getD j [] from by simp [kICCSigList]]
    rfl
  have hskip : ¬ ((mkChunkMarker N j (C.getD j [])).length < 2 ∨
      (mkChunkMarker N j (C.getD j [])).getD 1 0 ≠ 0xe2) := by
    rw [mkChunkMarker_cons]
    simp
  unfold processChunkMarker
  rw [if_neg hskip, hpay]
  simp only []
  rw [if_neg (fun hcon => by
    rcases hcon with h | h
    · rw [List.length_append] at h
      omega
    · exact h (List.take_left _ _))]
  simp only [List.drop_left, List.length_cons, List.getD_cons_zero, List.getD_cons_succ,
    goodChunkState_ordinal]
  rw [if_neg (by omega)]
  rw [if_neg (by simp)]
  rw [if_neg (by omega)]
  rcases Nat.eq_zero_or_pos j with rfl | hjpos
  · rw [show goodChunkState C N 0 = ⟨[], [], 0, true, 0⟩ from by
      unfold goodChunkState
      rw [if_pos rfl]]
    simp only []
    rw [if_neg (by simp)]
    rw [if_neg (by omega)]
    simp only [if_true]
    rw [if_neg (by
      rw [jl_getD_replicate_lt false false (N + 1) 1 (by omega)]
      simp)]
    rw [show goodChunkState C N 1 = ⟨chunkArr C N 1, presArr N 1, N, false, 1⟩ from by
      unfold goodChunkState
      rw [if_neg (by omega)]]
    have hpres : (List.replicate (N + 1) false).set 1 true = presArr N 1 := by
      rw [List.replicate_succ, List.set_cons_succ, presArr,
        show N = (N - 1) + 1 from by omega]
      simp [List.replicate_succ]
    have hchunks : (List.replicate (N + 1) (α := List Nat) []).set 1 (C.getD 0 []) =
        chunkArr C N 1 := by
      rw [List.replicate_succ, List.set_cons_succ, chunkArr,
        jl_take_succ_getD C 0 [] (by omega),
        show N = (N - 1) + 1 from by omega]
      simp [List.replicate_succ]
    rw [show List.drop 2 ((0 + 1) :: N :: C.getD 0 []) = C.getD 0 [] from rfl]
    simp only [Nat.zero_add]
    rw [hpres, hchunks]
  · rw [show goodChunkState C N j = ⟨chunkArr C N j, presArr N j, N, false, j⟩ from by
      unfold goodChunkState
      rw [if_neg (by omega)]]
    simp only []
    rw [if_neg (by simp)]
    rw [if_neg (by omega)]
    simp only [Bool.false_eq_true, if_false]
    rw [if_neg (by
      rw [presArr_getD N j hj]
      simp)]
    rw [show List.drop 2 ((j + 1) :: N :: C.getD j []) = C.getD j [] from rfl]
    rw [presArr_set N j hj, chunkArr_set C N j hN hj,
      show goodChunkState C N (j + 1) = ⟨chunkArr C N (j + 1), presArr N (j + 1), N,
        false, j + 1⟩ from by
      unfold goodChunkState
      rw [if_neg (by omega)]]

theorem processChunkMarker_skip (tag : List Nat) (ap : Bool) (st : ChunkState)
    (m : List Nat) (h : m.length < 2 ∨ m.getD 1 0 ≠ 0xe2) :
    processChunkMarker 0xe2 tag ap st m = .ok st := by
  unfold processChunkMarker
  rw [if_pos h]

theorem foldlM_skip (tag : List Nat) (ap : Bool) (priors : List (List Nat))
    (hp : ∀ m ∈ priors, m.length < 2 ∨ m.getD 1 0 ≠ 0xe2) (rest : List (List Nat))
    (st : ChunkState) :
    (priors ++ rest).foldlM (processChunkMarker 0xe2 tag ap) st =
      rest.foldlM (processChunkMarker 0xe2 tag ap) st := by
  induction priors generalizing st with
  | nil => rfl
  | cons m t ih =>
    rw [List.cons_append, List.foldlM_cons,
      processChunkMarker_skip tag ap st m (hp m (by simp))]
    show (t ++ rest).foldlM (processChunkMarker 0xe2 tag ap) st = _
    exact ih (fun m hm => hp m (by simp [hm])) st

theorem parse_fold (C : List (List Nat)) (N : Nat) (hN : C.length = N) :
    ∀ j, j ≤ N →
      ((List.range' j (N - j)).map
          (fun i => mkChunkMarker N i (C.getD i []))).foldlM
          (processChunkMarker 0xe2 kICCSigList false) (goodChunkState C N j) =
        .ok (goodChunkState C N N) := by
  suffices h : ∀ d j, j ≤ N → N - j = d →
      ((List.range' j (N - j)).map
          (fun i => mkChunkMarker N i (C.getD i []))).foldlM
          (processChunkMarker 0xe2 kICCSigList false) (goodChunkState C N j) =
        .ok (goodChunkState C N N) by
    intro j hj
    exact h (N - j) j hj rfl
  intro d
  induction d with
  | zero =>
    intro j hj hd
    have hjN : j = N := by omega
    subst hjN
    simp only [Nat.sub_self, List.range', List.map_nil, List.foldlM_nil]
    rfl
  | succ d ih =>
    intro j hj hd
    have hjN : j < N := by omega
    rw [hd, List.range'_succ, List.map_cons, List.foldlM_cons,
      processChunkMarker_step C N j hN hjN]
    show ((List.range' (j + 1) d).map
        (fun i => mkChunkMarker N i (C.getD i []))).foldlM
        (processChunkMarker 0xe2 kICCSigList false) (goodChunkState C N (j + 1)) = _
    rw [show d = N - (j + 1) from by omega]
    exact ih (j + 1) (by omega) (by omega)

theorem parse_good (C : List (List Nat)) (N : Nat) (hN : C.length = N)
    (priors : List (List Nat))
    (hp : ∀ m ∈ priors, m.length < 2 ∨ m.getD 1 0 ≠ 0xe2) :
    ParseChunkedMarker
        (priors ++ (List.range N).map (fun i => mkChunkMarker N i (C.getD i [])))
        0xe2 kICCSigList false = some C.flatten := by
  unfold ParseChunkedMarker
  rw [foldlM_skip kICCSigList false priors hp]
  have h0 : (ChunkState.mk [] [] 0 true 0) = goodChunkState C N 0 := by
    unfold goodChunkState
    rw [if_pos rfl]
  rw [List.range_eq_range', h0]
  have hfold := parse_fold C N hN 0 (by omega)
  rw [Nat.sub_zero] at hfold
  rw [hfold]
  rcases Nat.eq_zero_or_pos N with rfl | hN1
  · have hC : C = [] := List.length_eq_zero.mp hN
    subst hC
    rw [show goodChunkState ([] : List (List Nat)) 0 0 = ⟨[], [], 0, true, 0⟩ from by
      unfold goodChunkState
      rw [if_pos rfl]]
    simp
  · rw [show goodChunkState C N N = ⟨chunkArr C N N, presArr N N, N, false, N⟩ from by
      unfold goodChunkState
      rw [if_neg (by omega)]]
    simp only []
    have hchunkN : chunkArr C N N = [] :: C := by
      unfold chunkArr
      rw [Nat.sub_self, List.replicate_zero, List.append_nil, ← hN, List.take_length]
    have hall : (List.range N).all (fun i => (presArr N N).getD (i + 1) false) = true := by
      rw [List.all_eq_true]
      intro i hi
      rw [List.mem_range] at hi
      unfold presArr
      rw [Nat.sub_self, List.replicate_zero, List.append_nil, List.getD_cons_succ,
        jl_getD_replicate_lt true false N i hi]
    rw [if_pos hall, hchunkN]
    simp only [List.getD_cons_succ]
    rw [← hN, jl_range_flatMap_getD]

/-- `iccChunk` for chunk `i + 1` is chunk `i` of the tail. -/
theorem iccChunk_succ (icc : List Nat) (i : Nat) :
    iccChunk icc (i + 1) = iccChunk (icc.drop kMaxIccBytesInMarker) i := by
  unfold iccChunk
  rw [List.drop_drop, show (i + 1) * kMaxIccBytesInMarker =
    kMaxIccBytesInMarker + i * kMaxIccBytesInMarker from by ring]

theorem divCeil_succ_chunk (L : Nat) (hL : 0 < L) :
    divCeil L kMaxIccBytesInMarker = divCeil (L - kMaxIccBytesInMarker) kMaxIccBytesInMarker + 1 := by
  unfold divCeil kMaxIccBytesInMarker kMaxBytesInMarker
  omega

/-- The emitted chunks concatenate back to the input data. -/
theorem join_iccChunks (icc : List Nat) :
    ((List.range (divCeil icc.length kMaxIccBytesInMarker)).map (iccChunk icc)).flatten =
      icc := by
  suffices h : ∀ n (l : List Nat), l.length ≤ n →
      ((List.range (divCeil l.length kMaxIccBytesInMarker)).map (iccChunk l)).flatten = l by
    exact h icc.length icc (le_refl _)
  intro n
  induction n with
  | zero =>
    intro l hl
    have hl0 : l = [] := List.length_eq_zero.mp (by omega)
    subst hl0
    rw [show divCeil (List.length ([] : List Nat)) kMaxIccBytesInMarker = 0 from by
      unfold divCeil kMaxIccBytesInMarker kMaxBytesInMarker
      simp]
    simp
  | succ n ih =>
    intro l hl
    rcases Nat.eq_zero_or_pos l.length with hl0 | hlpos
    · have hl0' : l = [] := List.length_eq_zero.mp hl0
      subst hl0'
      rw [show divCeil (List.length ([] : List Nat)) kMaxIccBytesInMarker = 0 from by
        unfold divCeil kMaxIccBytesInMarker kMaxBytesInMarker
        simp]
      simp
    · rw [divCeil_succ_chunk l.length hlpos, List.range_succ_eq_map,
        List.map_cons]
      have hchunk0 : iccChunk l 0 = l.take kMaxIccBytesInMarker := by
        unfold iccChunk
        rw [Nat.zero_mul, List.drop_zero]
      have htail : (List.range (divCeil (l.length - kMaxIccBytesInMarker)
          kMaxIccBytesInMarker)).map (iccChunk l ∘ Nat.succ) =
          (List.range (divCeil (l.drop kMaxIccBytesInMarker).length
            kMaxIccBytesInMarker)).map (iccChunk (l.drop kMaxIccBytesInMarker)) := by
        rw [List.length_drop]
        apply List.map_congr_left
        intro i _
        show iccChunk l (i + 1) = _
        rw [iccChunk_succ]
      rw [List.map_map, htail, List.flatten_cons, ih (l.drop kMaxIccBytesInMarker) (by
        rw [List.length_drop]
        have hs : 0 < kMaxIccBytesInMarker := by
          norm_num [kMaxIccBytesInMarker, kMaxBytesInMarker]
        omega)]
      rw [hchunk0, List.take_append_drop]

/-- Bridging the written blob with the parser-side description: for
`j < N ≤ 255` no byte truncation occurs. -/
theorem iccMarkerBlob_eq_mk (icc : List Nat) (N j : Nat) (hj : j < N) (hN : N ≤ 255) :
    iccMarkerBlob icc N j = mkChunkMarker N j (iccChunk icc j) := by
  have hlen : (iccChunk icc j).length ≤ 65519 := by
    have h1 : (iccChunk icc j).length ≤ kMaxIccBytesInMarker := by
      unfold iccChunk
      simp
    have h2 : kMaxIccBytesInMarker = 65519 := by
      norm_num [kMaxIccBytesInMarker, kMaxBytesInMarker]
    omega
  unfold iccMarkerBlob mkChunkMarker
  rw [show ((iccChunk icc j).length + 16) / 256 % 256 =
      ((iccChunk icc j).length + 16) / 256 from by omega,
    show (j + 1) % 256 = j + 1 from by omega,
    show N % 256 = N from by omega]

/-! ### C1: ICC write / parse round trip -/

/-- C1: for a byte payload of length at most `65517 * 255`, writing it with
`write_icc_profile` on a context whose `special_markers` contain no APP2
entries and then running `ParseChunkedMarker(APP2, "ICC_PROFILE\0")` on the
resulting `special_markers` succeeds and recovers the payload exactly. -/
theorem C1_icc_round_trip (st : MarkerState) (icc : List Nat)
    (hlen : icc.length ≤ 65517 * 255) (hb : ∀ b ∈ icc, b < 256)
    (hp : ∀ m ∈ st.special_markers, m.length < 2 ∨ m.getD 1 0 ≠ 0xe2) :
    ∃ st', jpegli_write_icc_profile st icc = .ok st' ∧
      ParseChunkedMarker st'.special_markers 0xe2 kICCSigList false = some icc := by
  have hN255 : divCeil icc.length kMaxIccBytesInMarker ≤ 255 := by
    unfold divCeil kMaxIccBytesInMarker kMaxBytesInMarker
    omega
  refine ⟨_, write_icc_profile_eq st icc hb, ?_⟩
  have hCN : ((List.range (divCeil icc.length kMaxIccBytesInMarker)).map
      (iccChunk icc)).length = divCeil icc.length kMaxIccBytesInMarker := by
    rw [List.length_map, List.length_range]
  have hmap : (List.range (divCeil icc.length kMaxIccBytesInMarker)).map
      (iccMarkerBlob icc (divCeil icc.length kMaxIccBytesInMarker)) =
      (List.range (divCeil icc.length kMaxIccBytesInMarker)).map
        (fun i => mkChunkMarker (divCeil icc.length kMaxIccBytesInMarker) i
          (((List.range (divCeil icc.length kMaxIccBytesInMarker)).map
            (iccChunk icc)).getD i [])) := by
    apply List.map_congr_left
    intro j hj
    rw [List.mem_range] at hj
    rw [iccMarkerBlob_eq_mk icc _ j hj hN255]
    congr 1
    rw [List.getD_eq_getElem?_getD, List.getElem?_map, List.getElem?_range hj]
    rfl
  show ParseChunkedMarker (st.special_markers ++
      (List.range (divCeil icc.length kMaxIccBytesInMarker)).map
        (iccMarkerBlob icc (divCeil icc.length kMaxIccBytesInMarker)))
      0xe2 kICCSigList false = some icc
  rw [hmap, parse_good ((List.range (divCeil icc.length kMaxIccBytesInMarker)).map
    (iccChunk icc)) (divCeil icc.length kMaxIccBytesInMarker) hCN st.special_markers hp,
    join_iccChunks icc]

/-- Witness instantiating `C1_icc_round_trip` on a 3-byte profile. -/
theorem C1_icc_round_trip_witness :
    ∃ st', jpegli_write_icc_profile ⟨[], none⟩ [1, 2, 3] = .ok st' ∧
      ParseChunkedMarker st'.special_markers 0xe2 kICCSigList false = some [1, 2, 3] :=
  C1_icc_round_trip ⟨[], none⟩ [1, 2, 3] (by norm_num) (by decide)
    (fun m hm => absurd hm (List.not_mem_nil m))

end JpegliModel
